import Mathlib

/-!
Verification of the fiber_properties repository core algorithms.

The definitions below are shallow embeddings of the Python sources:
  ImageAnalysis.py           (center / radius estimation, edge method, getters)
  ModalNoise.py              (modal-noise metrics, Gini coefficient, FFT binning)
  FiberProperties/ModalNoise.py  (second, near-duplicate FFT implementation)

Floating-point numbers are modelled by an arbitrary linear ordered field
(instantiated at ℝ or ℚ in the theorems).  The golden ratio constant
self._phi = (sqrt 5 - 1) / 2 is passed explicitly so the machinery stays
executable; theorems instantiate it with the real constant.
-/

namespace FiberProps

variable {α : Type} [LinearOrderedField α]


/-! ## Definitions -/

/-! ## Golden-section brackets

Shared primitive of setFiberCenterRadiusMethod and setFiberCenterCircleMethod
in ImageAnalysis.py.  A bracket is the 4-point array r[0] < r[1] < r[2] < r[3]
(resp. x[...], y[...]) used by the golden mean optimization.
-/

@[ext]
structure Bracket (α : Type) where
  p0 : α
  p1 : α
  p2 : α
  p3 : α

/-- Initial interior-point placement, as in ImageAnalysis.py lines 477-478 and
556-560: p1 = p0 + (1-phi)(p3-p0) and p2 = p0 + phi(p3-p0). -/
def mkBracket (phi lo hi : α) : Bracket α :=
  ⟨lo, lo + (1 - phi) * (hi - lo), lo + phi * (hi - lo), hi⟩

/-- One bracket contraction of the golden mean loop.  down = true is the
min_index == 0 branch (keep the lower part), down = false the other branch,
exactly as in ImageAnalysis.py lines 488-495 (radius) and 576-591 (circle). -/
def shrink (phi : α) (down : Bool) (B : Bracket α) : Bracket α :=
  if down then
    ⟨B.p0, B.p0 + (1 - phi) * (B.p2 - B.p0), B.p1, B.p2⟩
  else
    ⟨B.p1, B.p2, B.p1 + phi * (B.p3 - B.p1), B.p3⟩

/-- Width of the search interval, r[3] - r[0]. -/
def Bracket.width (B : Bracket α) : α := B.p3 - B.p0

/-- The bracket is in the golden-section configuration. -/
def golden (phi : α) (B : Bracket α) : Prop :=
  B.p1 = B.p0 + (1 - phi) * (B.p3 - B.p0) ∧ B.p2 = B.p0 + phi * (B.p3 - B.p0)

/-! ## The radius method (setFiberCenterRadiusMethod, ImageAnalysis.py 444-508)

The outer golden-section search over the radius.  The inner circle method is
abstracted by a function f : α → α giving the value self._array_sum_circle
left by setFiberCenterCircleMethod(r, tol, test_range) — for a fixed image,
tolerance and test range this is a deterministic function of the radius.
-/

/-- State of the radius-method loop: the 4-point radius bracket r and the
two-element score array array_sum. -/
structure RadiusState (α : Type) where
  rb : Bracket α
  s : Fin 2 → α

/-- The score of a tested radius (lines 483 and 500-501):
array_sum_circle + threshold * pi * r^2.  The constant pi is a parameter
(piv) so that the definition stays field-generic. -/
def radiusScore (f : α → α) (threshold piv r : α) : α :=
  f r + threshold * piv * r ^ 2

/-- Initial radius bracket (lines 462-475): either [0, min(height,width)/2] or
the clipped test range around the approximate radius. -/
def radiusBracket (phi height width : α) (testRange : Option α)
    (approxRadius : α) : Bracket α :=
  match testRange with
  | none => mkBracket phi 0 (min height width / 2)
  | some tr =>
      mkBracket phi
        (if approxRadius - tr / 2 < 0 then 0 else approxRadius - tr / 2)
        (approxRadius + tr / 2)

/-- Initial scores (lines 480-484): array_sum[i] = score of r[i+1]. -/
def radiusInit (f : α → α) (threshold piv : α) (B : Bracket α) : RadiusState α :=
  ⟨B, fun i => radiusScore f threshold piv (if i = 0 then B.p1 else B.p2)⟩

/-- np.argmin on a two-element array: 0 on ties. -/
def argmin1 (a b : α) : Fin 2 := if a ≤ b then 0 else 1

/-- One iteration of the loop at lines 487-503: contract the bracket on the
side of the larger score, copy the surviving score into the opposite slot and
re-evaluate only the fresh radius. -/
def radiusStep (phi : α) (f : α → α) (threshold piv : α)
    (st : RadiusState α) : RadiusState α :=
  let mi := argmin1 (st.s 0) (st.s 1)
  let B2 := shrink phi (mi = 0) st.rb
  ⟨B2, fun i =>
    if i = mi then
      radiusScore f threshold piv (if mi = 0 then B2.p1 else B2.p2)
    else st.s mi⟩

/-- Loop guard of line 487: abs(r[3] - r[0]) > tol. -/
def radiusGuard (tol : α) (st : RadiusState α) : Prop :=
  tol < |st.rb.width|

/-! ## The fixed-radius circle method (setFiberCenterCircleMethod, 510-611)

Two-dimensional golden-section search for the circle center.  The masked-sum
objective getArraySum(removeCircle(filtered_image, x, y, radius, res)) is
abstracted by f : α → α → α (first argument x, second y); for a fixed image,
radius and resolution it is a deterministic function of the tested center.
-/

@[ext]
structure CircleState (α : Type) where
  xb : Bracket α
  yb : Bracket α
  s : Fin 2 → Fin 2 → α

/-- np.unravel_index(np.argmin(array_sum), (2, 2)): the first flat (row-major)
index attaining the minimum of the 2 x 2 score array. -/
def argmin2 (s : Fin 2 → Fin 2 → α) : Fin 2 × Fin 2 :=
  if s 0 0 ≤ s 0 1 ∧ s 0 0 ≤ s 1 0 ∧ s 0 0 ≤ s 1 1 then (0, 0)
  else if s 0 1 ≤ s 1 0 ∧ s 0 1 ≤ s 1 1 then (0, 1)
  else if s 1 0 ≤ s 1 1 then (1, 0)
  else (1, 1)

/-- The x and y search brackets of lines 528-560: with a test range, the range
around the edge-method approximate center clipped to [radius, dim - radius];
otherwise the full range [radius, dim - radius]. -/
def circleBrackets (phi radius width height : α) (testRange : Option α)
    (approxY approxX : α) : Bracket α × Bracket α :=
  match testRange with
  | none =>
      (mkBracket phi radius (width - radius),
       mkBracket phi radius (height - radius))
  | some tr =>
      (mkBracket phi
        (if approxX - tr / 2 < radius then radius else approxX - tr / 2)
        (if width - radius < approxX + tr / 2 then width - radius
         else approxX + tr / 2),
       mkBracket phi
        (if approxY - tr / 2 < radius then radius else approxY - tr / 2)
        (if height - radius < approxY + tr / 2 then height - radius
         else approxY + tr / 2))

/-- The corner position scored in array_sum[j, i]: (x[i+1], y[j+1]). -/
def corner (xb yb : Bracket α) (j i : Fin 2) : α × α :=
  ((if i = 0 then xb.p1 else xb.p2), (if j = 0 then yb.p1 else yb.p2))

/-- Initial corner scores (lines 562-569): every corner is evaluated. -/
def circleInit (f : α → α → α) (xb yb : Bracket α) : CircleState α :=
  ⟨xb, yb, fun j i => f (corner xb yb j i).1 (corner xb yb j i).2⟩

/-- One iteration of the loop at lines 574-606: contract both brackets toward
the minimal corner, copy that corner's score into the diagonally opposite slot
(line 594, "so it doesn't need to be recalculated") and re-evaluate the other
three corners. -/
def circleStep (phi : α) (f : α → α → α) (st : CircleState α) : CircleState α :=
  let mi := argmin2 st.s
  let xb2 := shrink phi (mi.2 = 0) st.xb
  let yb2 := shrink phi (mi.1 = 0) st.yb
  ⟨xb2, yb2, fun j i =>
    if j = 1 - mi.1 ∧ i = 1 - mi.2 then st.s mi.1 mi.2
    else f (corner xb2 yb2 j i).1 (corner xb2 yb2 j i).2⟩

/-- Loop guard of line 574: abs(x[3]-x[0]) > tol AND abs(y[3]-y[0]) > tol. -/
def circleGuard (tol : α) (st : CircleState α) : Prop :=
  tol < |st.xb.width| ∧ tol < |st.yb.width|

/-! ### Corner-reuse analysis (claim C5)

The loop of setFiberCenterCircleMethod evaluates the objective only at the
three corners that are not the copied one (lines 594 and 598-604).  We show
that a corner position evaluated in one iteration is never a position that was
already evaluated earlier: on each axis, the freshly placed probe is a
coordinate value that never occurred before.
-/

/-- Every previously used probe coordinate that lies strictly inside the
current bracket is one of the two current interior probes. -/
def HistOK (H : Set α) (B : Bracket α) : Prop :=
  ∀ v ∈ H, B.p0 < v → v < B.p3 → v = B.p1 ∨ v = B.p2

/-- The freshly placed interior probe of a shrink step: the only coordinate on
its axis whose objective value is not already known. -/
def freshProbe (phi : α) (down : Bool) (B : Bracket α) : α :=
  if down then (shrink phi down B).p1 else (shrink phi down B).p2

/-- All corner positions of a state. -/
def cornersAt (st : CircleState α) : Set (α × α) :=
  {p | ∃ j i : Fin 2, p = corner st.xb st.yb j i}

/-- The corner positions at which one loop iteration starting from state st
evaluates the objective: every corner of the contracted state except the
copied one (slot (1 - min_index[0], 1 - min_index[1]), lines 594-604). -/
def stepEvalSet (phi : α) (f : α → α → α) (st : CircleState α) :
    Set (α × α) :=
  {p | ∃ j i : Fin 2,
    ¬(j = 1 - (argmin2 st.s).1 ∧ i = 1 - (argmin2 st.s).2) ∧
    p = corner (circleStep phi f st).xb (circleStep phi f st).yb j i}

/-- All x coordinates used in evaluations up to (and including) iteration n. -/
def xHist (phi : α) (f : α → α → α) (xb0 yb0 : Bracket α) : ℕ → Set α
  | 0 => {xb0.p1, xb0.p2}
  | n + 1 => xHist phi f xb0 yb0 n ∪
      {((circleStep phi f)^[n + 1] (circleInit f xb0 yb0)).xb.p1,
       ((circleStep phi f)^[n + 1] (circleInit f xb0 yb0)).xb.p2}

/-- All y coordinates used in evaluations up to (and including) iteration n. -/
def yHist (phi : α) (f : α → α → α) (xb0 yb0 : Bracket α) : ℕ → Set α
  | 0 => {yb0.p1, yb0.p2}
  | n + 1 => yHist phi f xb0 yb0 n ∪
      {((circleStep phi f)^[n + 1] (circleInit f xb0 yb0)).yb.p1,
       ((circleStep phi f)^[n + 1] (circleInit f xb0 yb0)).yb.p2}

/-- All corner positions evaluated up to (and including) iteration n: the four
initial corners (lines 562-569) plus the re-evaluated corners of iterations
1..n. -/
def evalHistory (phi : α) (f : α → α → α) (xb0 yb0 : Bracket α) :
    ℕ → Set (α × α)
  | 0 => cornersAt (circleInit f xb0 yb0)
  | n + 1 => evalHistory phi f xb0 yb0 n ∪
      stepEvalSet phi f ((circleStep phi f)^[n] (circleInit f xb0 yb0))

/-! ## Getter-level interface of ImageAnalysis (methods dispatch, caching,
units), for claims C2 and C10 -/

/-- Python list/string membership test helper: pat is an initial segment of
the text. -/
def leadsText : List Char → List Char → Bool
  | [], _ => true
  | _ :: _, [] => false
  | c :: cs, d :: ds => c = d && leadsText cs ds

/-- The Python substring test pat in s, used by the method dispatch
('radius' in method, etc.). -/
def pyIn (pat s : String) : Bool :=
  s.toList.tails.any fun t => leadsText pat.toList t

/-- Cached per-method geometry of an ImageAnalysis object:
(center_y, center_x, diameter).  Every setter of the source assigns its three
fields together, so one Option per method models the nullable instance fields
_center_y_*, _center_x_*, _fiber_diameter_*. -/
structure AnalysisState (α : Type) where
  radiusM : Option (α × α × α)
  gaussianM : Option (α × α × α)
  circleM : Option (α × α × α)
  edgeM : Option (α × α × α)
  pixelSize : α
  magnification : α

/-- The four center-finding solvers (setFiberCenterRadiusMethod,
setFiberCenterGaussianMethod, setFiberCenterCircleMethod,
setFiberCenterEdgeMethod).  At the getter level each is an abstract function
producing the (center_y, center_x, diameter) triple it would store. -/
structure Solvers (α : Type) where
  radiusSolve : AnalysisState α → α × α × α
  gaussianSolve : AnalysisState α → α × α × α
  circleSolve : AnalysisState α → α × α × α
  edgeSolve : AnalysisState α → α × α × α

/-- getFiberCenterRadiusMethod (lines 246-266): solve only when the cache is
empty, then return (center_y, center_x). -/
def runRadiusMethod (S : Solvers α) (c : AnalysisState α) :
    AnalysisState α × (α × α) :=
  match c.radiusM with
  | some t => (c, (t.1, t.2.1))
  | none =>
      let t := S.radiusSolve c
      ({c with radiusM := some t}, (t.1, t.2.1))

/-- getFiberCenterGaussianMethod (lines 317-337): same caching discipline. -/
def runGaussianMethod (S : Solvers α) (c : AnalysisState α) :
    AnalysisState α × (α × α) :=
  match c.gaussianM with
  | some t => (c, (t.1, t.2.1))
  | none =>
      let t := S.gaussianSolve c
      ({c with gaussianM := some t}, (t.1, t.2.1))

/-- getFiberCenterCircleMethod (lines 268-293): the source calls
setFiberCenterCircleMethod unconditionally (line 285). -/
def runCircleMethod (S : Solvers α) (c : AnalysisState α) :
    AnalysisState α × (α × α) :=
  let t := S.circleSolve c
  ({c with circleM := some t}, (t.1, t.2.1))

/-- getFiberCenterEdgeMethod (lines 295-315): solve when _center_y_edge is
None. -/
def runEdgeMethod (S : Solvers α) (c : AnalysisState α) :
    AnalysisState α × (α × α) :=
  match c.edgeM with
  | some t => (c, (t.1, t.2.1))
  | none =>
      let t := S.edgeSolve c
      ({c with edgeM := some t}, (t.1, t.2.1))

/-- Default-method selection of getFiberCenter (lines 214-222). -/
def selectCenterMethod (c : AnalysisState α) : String :=
  if c.radiusM.isSome then "radius"
  else if c.gaussianM.isSome then "gaussian"
  else if c.circleM.isSome then "circle"
  else "edge"

/-- Default-method selection of getFiberDiameter (lines 170-176). -/
def selectDiameterMethod (c : AnalysisState α) : String :=
  if c.radiusM.isSome then "radius"
  else if c.gaussianM.isSome then "gaussian"
  else "edge"

/-- Unit conversion of the center (lines 239-244). -/
def convertCenter (units : String) (c : AnalysisState α) (ctr : α × α) :
    Except String (α × α) :=
  if units = "pixels" then Except.ok ctr
  else if units = "microns" then
    Except.ok (ctr.1 * c.pixelSize / c.magnification,
               ctr.2 * c.pixelSize / c.magnification)
  else Except.error "Incorrect string for units"

/-- getFiberCenter (lines 196-244): resolve the default method from the cache
priority, dispatch by Python substring matching, convert units. -/
def getFiberCenter (S : Solvers α) (method : Option String) (units : String)
    (c : AnalysisState α) : Except String (AnalysisState α × α × α) :=
  let m := match method with
    | none => selectCenterMethod c
    | some s => s
  if pyIn "radius" m then
    let r := runRadiusMethod S c
    (convertCenter units r.1 r.2).map fun ctr => (r.1, ctr)
  else if pyIn "gaussian" m then
    let r := runGaussianMethod S c
    (convertCenter units r.1 r.2).map fun ctr => (r.1, ctr)
  else if pyIn "circle" m then
    let r := runCircleMethod S c
    (convertCenter units r.1 r.2).map fun ctr => (r.1, ctr)
  else if pyIn "edge" m then
    let r := runEdgeMethod S c
    (convertCenter units r.1 r.2).map fun ctr => (r.1, ctr)
  else Except.error "Incorrect string for method type"

/-- getFiberDiameter (lines 158-194): resolve the default method, run the
center getter for that method (line 178), read the matching cached diameter
and convert units.  The none branches of the diameter lookup are unreachable
(the center call has already populated exactly that cache slot, or has raised
for an unknown method); they mirror the would-be error state. -/
def getFiberDiameter (S : Solvers α) (method : Option String) (units : String)
    (c : AnalysisState α) : Except String (AnalysisState α × α) :=
  let m := match method with
    | none => selectDiameterMethod c
    | some s => s
  match getFiberCenter S (some m) units c with
  | Except.error e => Except.error e
  | Except.ok (c2, _) =>
      let dOpt : Option α :=
        if pyIn "radius" m then c2.radiusM.map fun t => t.2.2
        else if pyIn "gaussian" m then c2.gaussianM.map fun t => t.2.2
        else if pyIn "edge" m then c2.edgeM.map fun t => t.2.2
        else none
      match dOpt with
      | none => Except.error "Incorrect string for method type"
      | some d =>
          if units = "pixels" then Except.ok (c2, d)
          else if units = "microns" then
            Except.ok (c2, d * c2.pixelSize / c2.magnification)
          else Except.error "Incorrect string for units"

/-- getFiberRadius (lines 144-156): exactly getFiberDiameter(...) / 2.0. -/
def getFiberRadius (S : Solvers α) (method : Option String) (units : String)
    (c : AnalysisState α) : Except String (AnalysisState α × α) :=
  match getFiberDiameter S method units c with
  | Except.error e => Except.error e
  | Except.ok (c2, d) => Except.ok (c2, d / 2)

/-- A method name is already computed when its cache slot is populated. -/
def methodComputed (c : AnalysisState α) : String → Bool
  | "radius" => c.radiusM.isSome
  | "gaussian" => c.gaussianM.isSome
  | "circle" => c.circleM.isSome
  | "edge" => c.edgeM.isSome
  | _ => false

/-! ## The Gini coefficient (getGiniCoefficient, ModalNoise.py 33-48, and the
identical _gini_coefficient, FiberProperties/ModalNoise.py 349-364) -/

/-- gini_coeff = sum over i of abs(a[i] - a).sum(); norm = 2 * sum * size;
result gini_coeff / norm.  The raveled array is a list. -/
def getGiniCoefficient (l : List α) : α :=
  (l.map fun x => (l.map fun y => |x - y|).sum).sum /
    (2 * l.sum * (l.length : α))

/-! ## The edge method (setFiberEdges / setFiberCenterEdgeMethod,
ImageAnalysis.py 613-663) -/

/-- numpy max of a slice, with a default for the (unused) empty case. -/
def listMaxD (d : α) : List α → α
  | [] => d
  | x :: xs => xs.foldl max x

/-- The scan of setFiberEdges over one axis: starting from the sentinels
(-1, -1), the first index whose slice maximum exceeds the threshold becomes
the first edge, and every later passing index overwrites the second edge. -/
def edgeScan (n : ℕ) (p : ℕ → Bool) : ℤ × ℤ :=
  (List.range n).foldl
    (fun lr idx =>
      if lr.1 < 0 then (if p idx then ((idx : ℤ), lr.2) else lr)
      else (if p idx then (lr.1, (idx : ℤ)) else lr))
    (-1, -1)

/-- Maximum of column j of the filtered image (first h rows). -/
def colMax (img : ℕ → ℕ → α) (h : ℕ) (j : ℕ) : α :=
  listMaxD 0 ((List.range h).map fun i => img i j)

/-- Maximum of row i of the filtered image (first w columns). -/
def rowMax (img : ℕ → ℕ → α) (w : ℕ) (i : ℕ) : α :=
  listMaxD 0 ((List.range w).map fun j => img i j)

structure EdgeResult (α : Type) where
  left : ℤ
  right : ℤ
  top : ℤ
  bottom : ℤ
  centerY : α
  centerX : α
  diameter : ℤ
deriving DecidableEq

/-- setFiberEdges followed by setFiberCenterEdgeMethod, on the filtered image
img with dimensions h x w: edges from the scans, center as edge midpoints,
diameter as the larger span.  The source raises no exception on this path, so
the embedding always returns ok. -/
def setFiberCenterEdgeMethod (img : ℕ → ℕ → α) (h w : ℕ) (threshold : α) :
    Except String (EdgeResult α) :=
  let lr := edgeScan w fun j => threshold < colMax img h j
  let tb := edgeScan h fun i => threshold < rowMax img w i
  Except.ok
    { left := lr.1, right := lr.2, top := tb.1, bottom := tb.2,
      centerY := ((tb.1 : α) + (tb.2 : α)) / 2,
      centerX := ((lr.1 : α) + (lr.2 : α)) / 2,
      diameter := max (lr.2 - lr.1) (tb.2 - tb.1) }

/-! ## Modal-noise tophat parameter mode (getModalNoiseTophat,
ModalNoise.py 89-131, and _modalNoiseTophat,
FiberProperties/ModalNoise.py 141-183) -/

/-- numpy ndarray.mean(): sum / size. -/
noncomputable def pyMean (l : List ℝ) : ℝ := l.sum / (l.length : ℝ)

/-- numpy ndarray.std(): the square root of the mean squared deviation. -/
noncomputable def pyStd (l : List ℝ) : ℝ :=
  Real.sqrt ((l.map fun x => (x - pyMean l) ^ 2).sum / (l.length : ℝ))

/-- Result of getModalNoiseTophat: the diagnostic-array branch returns
plotting arrays (not needed by any claim and therefore not carried), the
parameter branch returns the scalar STDEV / MEAN. -/
inductive TophatResult
  | arrays
  | param (value : ℝ)

/-- The output dispatch and the parameter computation of getModalNoiseTophat
(lines 113-131): len(output) < 3 raises, output in 'array' produces the
diagnostic arrays, output in 'parameter' returns
intensity_array.std() / intensity_array.mean() with no zero-mean check. -/
noncomputable def getModalNoiseTophat (output : String) (intensity : List ℝ) :
    Except String TophatResult :=
  if output.length < 3 then Except.error "Incorrect output string"
  else if pyIn output "array" then Except.ok TophatResult.arrays
  else if pyIn output "parameter" then
    Except.ok (TophatResult.param (pyStd intensity / pyMean intensity))
  else Except.error "Incorrect output string"

/-- Modelled from the spec: the helper getIntensityArray / intensityArray
lives in NumpyArrayHandler, which is not under src/.  Per spec section 4.1,
intensity_values(image, center, radius) is the flattened list of image values
whose pixel centers fall within the radius of the center (inclusive
boundary). -/
def intensityValuesSpec (img : ℕ → ℕ → ℝ) (h w : ℕ) (x0 y0 r : ℚ) :
    List ℝ :=
  ((List.range h).map (fun (i : ℕ) =>
    (((List.range w).filter (fun (j : ℕ) =>
      decide (((j : ℚ) - x0) ^ 2 + ((i : ℚ) - y0) ^ 2 ≤ r ^ 2))).map
        (fun (j : ℕ) => img i j)))).flatten

/-! ## The two near-duplicate FFT array outputs (claim C9)

getModalNoiseFFT (ModalNoise.py 171-248) and _modalNoiseFFT
(FiberProperties/ModalNoise.py 50-139) share their azimuthal-averaging
pipeline but differ in the transform length (8 * min(height, width) versus
the fixed 2500) and in the final normalization (maximum versus sum).  Both
are embedded below from the fft_length assignment onward, parameterized by
the windowed, cropped image (their common upstream). -/

/-- Magnitude of the orthonormal 2D DFT of the image zero-padded (or cropped)
to an L x L transform, np.abs(np.fft.fft2(image, s=(L, L), norm='ortho')). -/
noncomputable def dftMag (L h w : ℕ) (img : ℕ → ℕ → ℝ) (u v : ℕ) : ℝ :=
  Complex.abs ((∑ p ∈ Finset.range (min h L), ∑ q ∈ Finset.range (min w L),
    (img p q : ℂ) * Complex.exp (-2 * Real.pi * Complex.I *
      (((u * p : ℕ) : ℂ) / (L : ℂ) + ((v * q : ℕ) : ℂ) / (L : ℂ)))) / (L : ℂ))

/-- np.fft.fftshift for the even transform lengths used here: index a reads
position (a + L/2) mod L. -/
noncomputable def shiftedMag (L h w : ℕ) (img : ℕ → ℕ → ℝ) (a b : ℕ) : ℝ :=
  dftMag L h w img ((a + L / 2) % L) ((b + L / 2) % L)

/-- The quadrant fold (ModalNoise.py 216-221): the four mirror-symmetric
values around the shifted center (fy0, fx0) = (L/2, L/2) averaged. -/
noncomputable def foldedSpectrum (L h w : ℕ) (img : ℕ → ℕ → ℝ)
    (j i : ℕ) : ℝ :=
  (shiftedMag L h w img (L / 2 + j) (L / 2 + i) +
   shiftedMag L h w img (L / 2 + j) (L / 2 - i) +
   shiftedMag L h w img (L / 2 - j) (L / 2 - i) +
   shiftedMag L h w img (L / 2 - j) (L / 2 + i)) / 4

/-- The octant pairs that the double loop (ModalNoise.py 224-229) puts into
radial bin k: i in [0, max_freq), j in [0, i], kept when
sqrt(i^2 + j^2) <= max_freq, with bin index int(freq / bin_width) the integer
square root (bin_width = 1). -/
def binPairs (M k : ℕ) : Finset (ℕ × ℕ) :=
  (Finset.range M ×ˢ Finset.range M).filter fun p =>
    p.2 ≤ p.1 ∧ p.1 ^ 2 + p.2 ^ 2 ≤ M ^ 2 ∧ Nat.sqrt (p.1 ^ 2 + p.2 ^ 2) = k

/-- weight_list[k] after the loop: each kept pair contributes 2.0. -/
def binWeight (M k : ℕ) : ℕ := 2 * (binPairs M k).card

/-- fft_list[k] after the loop, before averaging: each kept pair (i, j)
contributes fft_array[j, i] + fft_array[i, j]. -/
noncomputable def binValue (L h w : ℕ) (img : ℕ → ℕ → ℝ) (k : ℕ) : ℝ :=
  ∑ p ∈ binPairs (L / 2) k,
    (foldedSpectrum L h w img p.2 p.1 + foldedSpectrum L h w img p.1 p.2)

/-- The bins surviving the mask weight_list > 0 (lines 231-235), out of the
list of length int(max_freq / bin_width) + 1. -/
def keptBins (M : ℕ) : List ℕ :=
  (List.range (M + 1)).filter fun k => 0 < binWeight M k

/-- The azimuthally averaged spectrum fft_list[mask] / weight_list[mask]. -/
noncomputable def rawSpectrum (L h w : ℕ) (img : ℕ → ℕ → ℝ) : List ℝ :=
  (keptBins (L / 2)).map fun k =>
    binValue L h w img k / (binWeight (L / 2) k : ℝ)

/-- The array output of getModalNoiseFFT (ModalNoise.py): transform length
fft_length = 8 * min(height, width); spectrum normalized by its maximum
(fft_list /= fft_list.max()); frequencies scaled by
1 / (fft_length * pixel_size / magnification). -/
noncomputable def fftArrayA (h w : ℕ) (img : ℕ → ℕ → ℝ)
    (pixelSize magnification : ℝ) : List ℝ × List ℝ :=
  let L := 8 * min h w
  let raw := rawSpectrum L h w img
  (raw.map fun x => x / listMaxD 0 raw,
   (keptBins (L / 2)).map fun (k : ℕ) =>
     (k : ℝ) / ((L : ℝ) * pixelSize / magnification))

/-- The array output of _modalNoiseFFT (FiberProperties/ModalNoise.py):
fixed transform length fft_length = 2500; spectrum normalized by its sum
(fft_list /= fft_list.sum()); same frequency scaling. -/
noncomputable def fftArrayB (h w : ℕ) (img : ℕ → ℕ → ℝ)
    (pixelSize magnification : ℝ) : List ℝ × List ℝ :=
  let L := 2500
  let raw := rawSpectrum L h w img
  (raw.map fun x => x / raw.sum,
   (keptBins (L / 2)).map fun (k : ℕ) =>
     (k : ℝ) / ((L : ℝ) * pixelSize / magnification))

/-! ## Theorems -/

theorem golden_mkBracket (phi lo hi : α) : golden phi (mkBracket phi lo hi) :=
  ⟨rfl, rfl⟩

/-- A shrink step keeps the golden configuration (this uses the defining
identity phi^2 = 1 - phi of the golden ratio) and scales the interval width
by exactly phi. -/
theorem golden_shrink (phi : α) (hphi : phi ^ 2 = 1 - phi) (down : Bool)
    (B : Bracket α) (hg : golden phi B) :
    golden phi (shrink phi down B) ∧ (shrink phi down B).width = phi * B.width := by
  obtain ⟨h1, h2⟩ := hg
  cases down with
  | false =>
      refine ⟨⟨?_, ?_⟩, ?_⟩
      · show B.p2 = B.p1 + (1 - phi) * (B.p3 - B.p1)
        linear_combination h2 - phi * h1 + (B.p3 - B.p0) * hphi
      · show B.p1 + phi * (B.p3 - B.p1) = B.p1 + phi * (B.p3 - B.p1)
        rfl
      · show B.p3 - B.p1 = phi * (B.p3 - B.p0)
        linear_combination -h1
  | true =>
      refine ⟨⟨?_, ?_⟩, ?_⟩
      · show B.p0 + (1 - phi) * (B.p2 - B.p0) = B.p0 + (1 - phi) * (B.p2 - B.p0)
        rfl
      · show B.p1 = B.p0 + phi * (B.p2 - B.p0)
        linear_combination h1 - phi * h2 - (B.p3 - B.p0) * hphi
      · show B.p2 - B.p0 = phi * (B.p3 - B.p0)
        linear_combination h2

theorem radius_step_scores (phi : α) (f : α → α) (threshold piv : α)
    (st : RadiusState α)
    (h : st.s 0 = radiusScore f threshold piv st.rb.p1 ∧
         st.s 1 = radiusScore f threshold piv st.rb.p2) :
    (radiusStep phi f threshold piv st).s 0 =
      radiusScore f threshold piv (radiusStep phi f threshold piv st).rb.p1 ∧
    (radiusStep phi f threshold piv st).s 1 =
      radiusScore f threshold piv (radiusStep phi f threshold piv st).rb.p2 := by
  obtain ⟨h0, h1⟩ := h
  by_cases hle : st.s 0 ≤ st.s 1 <;>
    · rw [h0, h1] at hle
      simp [radiusStep, argmin1, hle, shrink, h0, h1]

/-! ### Facts about the golden ratio constant self._phi = (sqrt 5 - 1) / 2 -/

theorem sqrt_five_lb : (2.23606 : ℝ) < Real.sqrt 5 :=
  (Real.lt_sqrt (by norm_num)).mpr (by norm_num)

theorem sqrt_five_ub : Real.sqrt 5 < 2.23607 :=
  (Real.sqrt_lt' (by norm_num)).mpr (by norm_num)

theorem goldenPhi_sq : ((Real.sqrt 5 - 1) / 2) ^ 2 = 1 - (Real.sqrt 5 - 1) / 2 := by
  have h := Real.sq_sqrt (show (0:ℝ) ≤ 5 by norm_num)
  linear_combination h / 4

theorem goldenPhi_pos : 0 < (Real.sqrt 5 - 1) / 2 := by
  have := sqrt_five_lb; linarith

theorem goldenPhi_lt_one : (Real.sqrt 5 - 1) / 2 < 1 := by
  have := sqrt_five_ub; linarith

/-- C1: setFiberCenterRadiusMethod is a golden-section search whose score for
each tested radius r[i+1] is the circle-method array sum at that radius plus
threshold * pi * r[i+1]^2.  The inner circle method is abstracted by f
(the value of self._array_sum_circle as a function of the tested radius);
the invariant holds at every iteration of the loop, for every image (any f),
every threshold and every initial radius bracket. -/
theorem radius_method_score_formula (f : ℝ → ℝ)
    (threshold height width approx : ℝ) (testRange : Option ℝ) (n : ℕ) :
    ((radiusStep ((Real.sqrt 5 - 1) / 2) f threshold Real.pi)^[n]
        (radiusInit f threshold Real.pi
          (radiusBracket ((Real.sqrt 5 - 1) / 2) height width testRange approx))).s 0 =
      f (((radiusStep ((Real.sqrt 5 - 1) / 2) f threshold Real.pi)^[n]
        (radiusInit f threshold Real.pi
          (radiusBracket ((Real.sqrt 5 - 1) / 2) height width testRange approx))).rb.p1) +
      threshold * Real.pi *
        (((radiusStep ((Real.sqrt 5 - 1) / 2) f threshold Real.pi)^[n]
        (radiusInit f threshold Real.pi
          (radiusBracket ((Real.sqrt 5 - 1) / 2) height width testRange approx))).rb.p1) ^ 2 ∧
    ((radiusStep ((Real.sqrt 5 - 1) / 2) f threshold Real.pi)^[n]
        (radiusInit f threshold Real.pi
          (radiusBracket ((Real.sqrt 5 - 1) / 2) height width testRange approx))).s 1 =
      f (((radiusStep ((Real.sqrt 5 - 1) / 2) f threshold Real.pi)^[n]
        (radiusInit f threshold Real.pi
          (radiusBracket ((Real.sqrt 5 - 1) / 2) height width testRange approx))).rb.p2) +
      threshold * Real.pi *
        (((radiusStep ((Real.sqrt 5 - 1) / 2) f threshold Real.pi)^[n]
        (radiusInit f threshold Real.pi
          (radiusBracket ((Real.sqrt 5 - 1) / 2) height width testRange approx))).rb.p2) ^ 2 := by
  induction n with
  | zero =>
      simp [radiusInit, radiusScore]
  | succ n ih =>
      rw [Function.iterate_succ_apply']
      exact radius_step_scores _ f threshold Real.pi _ ih

/-- The bracket stays golden and its width is scaled by phi at every step of
the radius-method loop. -/
theorem radius_width_evolution (phi : α) (hphi : phi ^ 2 = 1 - phi)
    (f : α → α) (threshold piv : α) (B : Bracket α) (hB : golden phi B) :
    ∀ n : ℕ,
      golden phi (((radiusStep phi f threshold piv)^[n]
        (radiusInit f threshold piv B)).rb) ∧
      ((radiusStep phi f threshold piv)^[n]
        (radiusInit f threshold piv B)).rb.width = phi ^ n * B.width := by
  intro n
  induction n with
  | zero => simpa [radiusInit] using hB
  | succ n ih =>
      rw [Function.iterate_succ_apply']
      obtain ⟨hg, hw⟩ := ih
      have hstep := golden_shrink phi hphi
        (argmin1 (((radiusStep phi f threshold piv)^[n]
          (radiusInit f threshold piv B)).s 0)
          (((radiusStep phi f threshold piv)^[n]
          (radiusInit f threshold piv B)).s 1) = 0) _ hg
      refine ⟨hstep.1, ?_⟩
      rw [show (radiusStep phi f threshold piv
          (((radiusStep phi f threshold piv)^[n])
            (radiusInit f threshold piv B))).rb =
          shrink phi _ (((radiusStep phi f threshold piv)^[n]
            (radiusInit f threshold piv B)).rb) from rfl, hstep.2, hw]
      ring

/-- C3: the golden-section loop of setFiberCenterRadiusMethod terminates for
every tolerance tol > 0 and every initial radius bracket: each iteration
scales the bracket width abs(r[3]-r[0]) by the constant factor
phi = (sqrt 5 - 1)/2 < 1, so the guard abs(r[3]-r[0]) > tol eventually
fails. -/
theorem radius_search_terminates (f : ℝ → ℝ)
    (threshold height width approx tol : ℝ) (testRange : Option ℝ)
    (htol : 0 < tol) :
    (∀ n : ℕ,
      |(((radiusStep ((Real.sqrt 5 - 1) / 2) f threshold Real.pi)^[n + 1]
        (radiusInit f threshold Real.pi
          (radiusBracket ((Real.sqrt 5 - 1) / 2) height width testRange approx))).rb.width)| =
      ((Real.sqrt 5 - 1) / 2) *
      |(((radiusStep ((Real.sqrt 5 - 1) / 2) f threshold Real.pi)^[n]
        (radiusInit f threshold Real.pi
          (radiusBracket ((Real.sqrt 5 - 1) / 2) height width testRange approx))).rb.width)|) ∧
    ∃ n : ℕ, ¬ radiusGuard tol
      ((radiusStep ((Real.sqrt 5 - 1) / 2) f threshold Real.pi)^[n]
        (radiusInit f threshold Real.pi
          (radiusBracket ((Real.sqrt 5 - 1) / 2) height width testRange approx))) := by
  set phi : ℝ := (Real.sqrt 5 - 1) / 2 with hphidef
  have hsq : phi ^ 2 = 1 - phi := goldenPhi_sq
  have hpos : 0 < phi := goldenPhi_pos
  have hlt : phi < 1 := goldenPhi_lt_one
  have hgB : golden phi (radiusBracket phi height width testRange approx) := by
    cases testRange <;> exact golden_mkBracket ..
  have hev := radius_width_evolution phi hsq f threshold Real.pi _ hgB
  constructor
  · intro n
    have h1 := (hev (n + 1)).2
    have h0 := (hev n).2
    rw [h1, h0, pow_succ]
    rw [abs_mul, abs_mul, abs_mul, abs_of_pos hpos]
    ring
  · set w0 : ℝ := |(radiusBracket phi height width testRange approx).width| with hw0
    have habs : ∀ n : ℕ,
        |(((radiusStep phi f threshold Real.pi)^[n]
          (radiusInit f threshold Real.pi
            (radiusBracket phi height width testRange approx))).rb.width)| =
        phi ^ n * w0 := by
      intro n
      rw [(hev n).2, abs_mul, abs_of_pos (pow_pos hpos n)]
    rcases eq_or_lt_of_le (abs_nonneg
      (radiusBracket phi height width testRange approx).width) with hz | hz
    · refine ⟨0, ?_⟩
      simp only [radiusGuard, not_lt]
      rw [habs 0]
      have hzero : w0 = 0 := hw0.trans hz.symm
      rw [hzero, mul_zero]
      exact le_of_lt htol
    · obtain ⟨n, hn⟩ := exists_pow_lt_of_lt_one (div_pos htol hz) hlt
      refine ⟨n, ?_⟩
      simp only [radiusGuard, not_lt]
      rw [habs n]
      have : phi ^ n * w0 < tol / w0 * w0 := mul_lt_mul_of_pos_right hn hz
      rw [div_mul_cancel₀ tol (ne_of_gt hz)] at this
      exact le_of_lt this

/-- Concrete instance of radius_search_terminates at tol = 1 on a 100 x 100
image with the full radius range; the hypothesis 0 < tol holds there. -/
theorem radius_search_terminates_witness :
    (0 : ℝ) < 1 ∧
    ((∀ n : ℕ,
      |(((radiusStep ((Real.sqrt 5 - 1) / 2) (fun _ => 0) 0 Real.pi)^[n + 1]
        (radiusInit (fun _ => 0) 0 Real.pi
          (radiusBracket ((Real.sqrt 5 - 1) / 2) 100 100 none 50))).rb.width)| =
      ((Real.sqrt 5 - 1) / 2) *
      |(((radiusStep ((Real.sqrt 5 - 1) / 2) (fun _ => 0) 0 Real.pi)^[n]
        (radiusInit (fun _ => 0) 0 Real.pi
          (radiusBracket ((Real.sqrt 5 - 1) / 2) 100 100 none 50))).rb.width)|) ∧
    ∃ n : ℕ, ¬ radiusGuard 1
      ((radiusStep ((Real.sqrt 5 - 1) / 2) (fun _ => 0) 0 Real.pi)^[n]
        (radiusInit (fun _ => 0) 0 Real.pi
          (radiusBracket ((Real.sqrt 5 - 1) / 2) 100 100 none 50)))) :=
  ⟨one_pos, radius_search_terminates (fun _ => 0) 0 100 100 50 1 none one_pos⟩

/-- Brackets stay golden and both widths scale by phi at each circle-method
iteration. -/
theorem circle_width_evolution (phi : α) (hphi : phi ^ 2 = 1 - phi)
    (f : α → α → α) (xb yb : Bracket α)
    (hgx : golden phi xb) (hgy : golden phi yb) :
    ∀ n : ℕ,
      golden phi (((circleStep phi f)^[n] (circleInit f xb yb)).xb) ∧
      golden phi (((circleStep phi f)^[n] (circleInit f xb yb)).yb) ∧
      ((circleStep phi f)^[n] (circleInit f xb yb)).xb.width =
        phi ^ n * xb.width ∧
      ((circleStep phi f)^[n] (circleInit f xb yb)).yb.width =
        phi ^ n * yb.width := by
  intro n
  induction n with
  | zero => exact ⟨hgx, hgy, by simp [circleInit], by simp [circleInit]⟩
  | succ n ih =>
      obtain ⟨ihx, ihy, ihwx, ihwy⟩ := ih
      rw [Function.iterate_succ_apply']
      have hx := golden_shrink phi hphi
        ((argmin2 (((circleStep phi f)^[n] (circleInit f xb yb)).s)).2 = 0) _ ihx
      have hy := golden_shrink phi hphi
        ((argmin2 (((circleStep phi f)^[n] (circleInit f xb yb)).s)).1 = 0) _ ihy
      refine ⟨hx.1, hy.1, ?_, ?_⟩
      · rw [show (circleStep phi f ((circleStep phi f)^[n]
            (circleInit f xb yb))).xb = shrink phi _
            (((circleStep phi f)^[n] (circleInit f xb yb)).xb) from rfl,
          hx.2, ihwx]
        ring
      · rw [show (circleStep phi f ((circleStep phi f)^[n]
            (circleInit f xb yb))).yb = shrink phi _
            (((circleStep phi f)^[n] (circleInit f xb yb)).yb) from rfl,
          hy.2, ihwy]
        ring

/-- C4 amended: for every objective, every golden pair of initial brackets and
every tolerance tol > 0, each iteration of the circle-method loop scales both
interval widths by phi, the loop guard
abs(x[3]-x[0]) > tol AND abs(y[3]-y[0]) > tol eventually fails, and whenever
it fails the interval width is at most tol in AT LEAST ONE of the two axes
(not necessarily in both: the conjunction in the guard means the loop exits
as soon as a single axis reaches the tolerance). -/
theorem circle_exit_one_axis_within_tol (f : ℝ → ℝ → ℝ) (xb yb : Bracket ℝ)
    (tol : ℝ) (hgx : golden ((Real.sqrt 5 - 1) / 2) xb)
    (hgy : golden ((Real.sqrt 5 - 1) / 2) yb) (htol : 0 < tol) :
    (∀ n : ℕ,
      (((circleStep ((Real.sqrt 5 - 1) / 2) f)^[n + 1]
          (circleInit f xb yb)).xb.width =
        ((Real.sqrt 5 - 1) / 2) *
        ((circleStep ((Real.sqrt 5 - 1) / 2) f)^[n]
          (circleInit f xb yb)).xb.width) ∧
      (((circleStep ((Real.sqrt 5 - 1) / 2) f)^[n + 1]
          (circleInit f xb yb)).yb.width =
        ((Real.sqrt 5 - 1) / 2) *
        ((circleStep ((Real.sqrt 5 - 1) / 2) f)^[n]
          (circleInit f xb yb)).yb.width)) ∧
    (∃ n : ℕ, ¬ circleGuard tol
      ((circleStep ((Real.sqrt 5 - 1) / 2) f)^[n] (circleInit f xb yb))) ∧
    (∀ n : ℕ, ¬ circleGuard tol
        ((circleStep ((Real.sqrt 5 - 1) / 2) f)^[n] (circleInit f xb yb)) →
      |((circleStep ((Real.sqrt 5 - 1) / 2) f)^[n]
          (circleInit f xb yb)).xb.width| ≤ tol ∨
      |((circleStep ((Real.sqrt 5 - 1) / 2) f)^[n]
          (circleInit f xb yb)).yb.width| ≤ tol) := by
  set phi : ℝ := (Real.sqrt 5 - 1) / 2 with hphidef
  have hsq : phi ^ 2 = 1 - phi := goldenPhi_sq
  have hpos : 0 < phi := goldenPhi_pos
  have hlt : phi < 1 := goldenPhi_lt_one
  have hev := circle_width_evolution phi hsq f xb yb hgx hgy
  refine ⟨?_, ?_, ?_⟩
  · intro n
    constructor
    · rw [(hev (n + 1)).2.2.1, (hev n).2.2.1, pow_succ]; ring
    · rw [(hev (n + 1)).2.2.2, (hev n).2.2.2, pow_succ]; ring
  · have habs : ∀ n : ℕ,
        |((circleStep phi f)^[n] (circleInit f xb yb)).xb.width| =
          phi ^ n * |xb.width| := by
      intro n
      rw [(hev n).2.2.1, abs_mul, abs_of_pos (pow_pos hpos n)]
    rcases eq_or_lt_of_le (abs_nonneg xb.width) with hz | hz
    · refine ⟨0, fun hg => ?_⟩
      have h1 := hg.1
      rw [habs 0, pow_zero, one_mul, ← hz] at h1
      linarith
    · obtain ⟨n, hn⟩ := exists_pow_lt_of_lt_one (div_pos htol hz) hlt
      refine ⟨n, fun hg => ?_⟩
      have h1 := hg.1
      rw [habs n] at h1
      have : phi ^ n * |xb.width| < tol := by
        have := mul_lt_mul_of_pos_right hn hz
        rwa [div_mul_cancel₀ tol (ne_of_gt hz)] at this
      exact absurd h1 (not_lt.mpr (le_of_lt this))
  · intro n hg
    rcases not_and_or.mp hg with h | h
    · exact Or.inl (not_lt.mp h)
    · exact Or.inr (not_lt.mp h)

/-- Instance of circle_exit_one_axis_within_tol on the unit brackets with the
zero objective and tol = 1; the golden-configuration and positivity
hypotheses hold there. -/
theorem circle_exit_one_axis_within_tol_witness :
    golden ((Real.sqrt 5 - 1) / 2)
      (mkBracket ((Real.sqrt 5 - 1) / 2) 0 (1 : ℝ)) ∧ (0 : ℝ) < 1 ∧
    (∀ n : ℕ,
      (((circleStep ((Real.sqrt 5 - 1) / 2) (fun _ _ => 0))^[n + 1]
          (circleInit (fun _ _ => 0)
            (mkBracket ((Real.sqrt 5 - 1) / 2) 0 1)
            (mkBracket ((Real.sqrt 5 - 1) / 2) 0 1))).xb.width =
        ((Real.sqrt 5 - 1) / 2) *
        ((circleStep ((Real.sqrt 5 - 1) / 2) (fun _ _ => 0))^[n]
          (circleInit (fun _ _ => 0)
            (mkBracket ((Real.sqrt 5 - 1) / 2) 0 1)
            (mkBracket ((Real.sqrt 5 - 1) / 2) 0 1))).xb.width) ∧
      (((circleStep ((Real.sqrt 5 - 1) / 2) (fun _ _ => 0))^[n + 1]
          (circleInit (fun _ _ => 0)
            (mkBracket ((Real.sqrt 5 - 1) / 2) 0 1)
            (mkBracket ((Real.sqrt 5 - 1) / 2) 0 1))).yb.width =
        ((Real.sqrt 5 - 1) / 2) *
        ((circleStep ((Real.sqrt 5 - 1) / 2) (fun _ _ => 0))^[n]
          (circleInit (fun _ _ => 0)
            (mkBracket ((Real.sqrt 5 - 1) / 2) 0 1)
            (mkBracket ((Real.sqrt 5 - 1) / 2) 0 1))).yb.width)) ∧
    (∃ n : ℕ, ¬ circleGuard 1
      ((circleStep ((Real.sqrt 5 - 1) / 2) (fun _ _ => 0))^[n]
        (circleInit (fun _ _ => 0)
          (mkBracket ((Real.sqrt 5 - 1) / 2) 0 1)
          (mkBracket ((Real.sqrt 5 - 1) / 2) 0 1)))) ∧
    (∀ n : ℕ, ¬ circleGuard 1
        ((circleStep ((Real.sqrt 5 - 1) / 2) (fun _ _ => 0))^[n]
          (circleInit (fun _ _ => 0)
            (mkBracket ((Real.sqrt 5 - 1) / 2) 0 1)
            (mkBracket ((Real.sqrt 5 - 1) / 2) 0 1))) →
      |((circleStep ((Real.sqrt 5 - 1) / 2) (fun _ _ => 0))^[n]
          (circleInit (fun _ _ => 0)
            (mkBracket ((Real.sqrt 5 - 1) / 2) 0 1)
            (mkBracket ((Real.sqrt 5 - 1) / 2) 0 1))).xb.width| ≤ 1 ∨
      |((circleStep ((Real.sqrt 5 - 1) / 2) (fun _ _ => 0))^[n]
          (circleInit (fun _ _ => 0)
            (mkBracket ((Real.sqrt 5 - 1) / 2) 0 1)
            (mkBracket ((Real.sqrt 5 - 1) / 2) 0 1))).yb.width| ≤ 1) :=
  ⟨golden_mkBracket _ _ _, one_pos,
    circle_exit_one_axis_within_tol (fun _ _ => 0)
      (mkBracket ((Real.sqrt 5 - 1) / 2) 0 1)
      (mkBracket ((Real.sqrt 5 - 1) / 2) 0 1) 1
      (golden_mkBracket _ _ _) (golden_mkBracket _ _ _) one_pos⟩

theorem shrink_true_mkBracket (phi lo w : α) (hphi : phi ^ 2 = 1 - phi) :
    shrink phi true (mkBracket phi lo (lo + w)) =
      mkBracket phi lo (lo + phi * w) := by
  refine Bracket.ext ?_ ?_ ?_ ?_
  · rfl
  · show lo + (1 - phi) * ((lo + phi * (lo + w - lo)) - lo) =
      lo + (1 - phi) * (lo + phi * w - lo)
    ring
  · show lo + (1 - phi) * (lo + w - lo) = lo + phi * (lo + phi * w - lo)
    linear_combination (-w) * hphi
  · show lo + phi * (lo + w - lo) = lo + phi * w
    ring

/-- With the identically-zero objective (e.g. an all-zero filtered image) the
argmin is always the first corner and each iteration contracts both brackets
downward. -/
theorem circleStep_const_zero (phi : α) (Bx By : Bracket α) :
    circleStep phi (fun _ _ => (0 : α)) (circleInit (fun _ _ => 0) Bx By) =
      circleInit (fun _ _ => 0) (shrink phi true Bx) (shrink phi true By) := by
  have hmi : argmin2 ((circleInit (fun _ _ => (0:α)) Bx By).s) =
      ((0 : Fin 2), (0 : Fin 2)) := by
    simp [argmin2, circleInit]
  refine CircleState.ext ?_ ?_ ?_
  · show shrink phi _ Bx = shrink phi true Bx
    rw [hmi]
    rfl
  · show shrink phi _ By = shrink phi true By
    rw [hmi]
    rfl
  · show (fun j i => if j = 1 - (argmin2 _).1 ∧ i = 1 - (argmin2 _).2
        then (circleInit (fun _ _ => (0:α)) Bx By).s (argmin2 _).1 (argmin2 _).2
        else _) = _
    funext j i
    by_cases h : j = 1 - (argmin2 ((circleInit (fun _ _ => (0:α)) Bx By).s)).1 ∧
        i = 1 - (argmin2 ((circleInit (fun _ _ => (0:α)) Bx By).s)).2 <;>
      simp [h, circleInit]

theorem goldenPhi_pow_nine :
    ((Real.sqrt 5 - 1) / 2) ^ 9 = 34 * ((Real.sqrt 5 - 1) / 2) - 21 := by
  have h2 := goldenPhi_sq
  set phi : ℝ := (Real.sqrt 5 - 1) / 2
  have h4 : phi ^ 4 = 2 - 3 * phi := by
    linear_combination (phi ^ 2 - phi + 2) * h2
  have h8 : phi ^ 8 = 13 - 21 * phi := by
    linear_combination (phi ^ 4 + 2 - 3 * phi) * h4 + 9 * h2
  linear_combination phi * h8 - 21 * h2

theorem goldenPhi_pow_ten :
    ((Real.sqrt 5 - 1) / 2) ^ 10 = 34 - 55 * ((Real.sqrt 5 - 1) / 2) := by
  have h2 := goldenPhi_sq
  have h9 := goldenPhi_pow_nine
  set phi : ℝ := (Real.sqrt 5 - 1) / 2
  linear_combination phi * h9 + 34 * h2

/-- Closed form of the circle-method run on a 200 x 100 image (width 200,
height 100), radius 10, full search range and an all-zero objective: after n
iterations the x bracket is [10, 10 + 180 phi^n] and the y bracket is
[10, 10 + 80 phi^n]. -/
theorem circle_zero_traj (n : ℕ) :
    (circleStep ((Real.sqrt 5 - 1) / 2) (fun _ _ => (0:ℝ)))^[n]
      (circleInit (fun _ _ => (0:ℝ))
        (mkBracket ((Real.sqrt 5 - 1) / 2) 10 190)
        (mkBracket ((Real.sqrt 5 - 1) / 2) 10 90)) =
    circleInit (fun _ _ => (0:ℝ))
      (mkBracket ((Real.sqrt 5 - 1) / 2) 10
        (10 + 180 * ((Real.sqrt 5 - 1) / 2) ^ n))
      (mkBracket ((Real.sqrt 5 - 1) / 2) 10
        (10 + 80 * ((Real.sqrt 5 - 1) / 2) ^ n)) := by
  induction n with
  | zero => norm_num
  | succ n ih =>
      rw [Function.iterate_succ_apply', ih, circleStep_const_zero,
        shrink_true_mkBracket _ _ _ goldenPhi_sq,
        shrink_true_mkBracket _ _ _ goldenPhi_sq]
      congr 2 <;> ring

/-- Width values along the zero-objective run. -/
theorem circle_zero_traj_widths (n : ℕ) :
    |(((circleStep ((Real.sqrt 5 - 1) / 2) (fun _ _ => (0:ℝ)))^[n]
      (circleInit (fun _ _ => (0:ℝ))
        (mkBracket ((Real.sqrt 5 - 1) / 2) 10 190)
        (mkBracket ((Real.sqrt 5 - 1) / 2) 10 90))).xb.width)| =
      180 * ((Real.sqrt 5 - 1) / 2) ^ n ∧
    |(((circleStep ((Real.sqrt 5 - 1) / 2) (fun _ _ => (0:ℝ)))^[n]
      (circleInit (fun _ _ => (0:ℝ))
        (mkBracket ((Real.sqrt 5 - 1) / 2) 10 190)
        (mkBracket ((Real.sqrt 5 - 1) / 2) 10 90))).yb.width)| =
      80 * ((Real.sqrt 5 - 1) / 2) ^ n := by
  have hp := pow_pos goldenPhi_pos n
  rw [circle_zero_traj n]
  constructor
  · rw [show (((circleInit (fun _ _ => (0:ℝ))
        (mkBracket ((Real.sqrt 5 - 1) / 2) 10
          (10 + 180 * ((Real.sqrt 5 - 1) / 2) ^ n))
        (mkBracket ((Real.sqrt 5 - 1) / 2) 10
          (10 + 80 * ((Real.sqrt 5 - 1) / 2) ^ n)))).xb.width) =
      180 * ((Real.sqrt 5 - 1) / 2) ^ n from by
        show 10 + 180 * ((Real.sqrt 5 - 1) / 2) ^ n - 10 = _; ring]
    exact abs_of_pos (by linarith)
  · rw [show (((circleInit (fun _ _ => (0:ℝ))
        (mkBracket ((Real.sqrt 5 - 1) / 2) 10
          (10 + 180 * ((Real.sqrt 5 - 1) / 2) ^ n))
        (mkBracket ((Real.sqrt 5 - 1) / 2) 10
          (10 + 80 * ((Real.sqrt 5 - 1) / 2) ^ n)))).yb.width) =
      80 * ((Real.sqrt 5 - 1) / 2) ^ n from by
        show 10 + 80 * ((Real.sqrt 5 - 1) / 2) ^ n - 10 = _; ring]
    exact abs_of_pos (by linarith)

/-- While m <= 9 the loop guard still holds on the zero-objective run. -/
theorem circle_zero_guard_until (m : ℕ) (hm : m ≤ 9) :
    circleGuard 1
      ((circleStep ((Real.sqrt 5 - 1) / 2) (fun _ _ => (0:ℝ)))^[m]
        (circleInit (fun _ _ => (0:ℝ))
          (mkBracket ((Real.sqrt 5 - 1) / 2) 10 190)
          (mkBracket ((Real.sqrt 5 - 1) / 2) 10 90))) := by
  obtain ⟨hx, hy⟩ := circle_zero_traj_widths m
  have hmono : ((Real.sqrt 5 - 1) / 2) ^ 9 ≤ ((Real.sqrt 5 - 1) / 2) ^ m :=
    pow_le_pow_of_le_one (le_of_lt goldenPhi_pos)
      (le_of_lt goldenPhi_lt_one) hm
  have h9 : (1 : ℝ) < 80 * ((Real.sqrt 5 - 1) / 2) ^ 9 := by
    rw [goldenPhi_pow_nine]
    have := sqrt_five_lb
    linarith
  constructor
  · rw [hx]
    have hp := pow_pos goldenPhi_pos m
    nlinarith
  · rw [hy]
    nlinarith

/-- C4 counterexample: on a 200 x 100 image with radius 10, full search range,
zero objective and tol = 1, the circle-method loop runs for exactly 10
iterations (the guard holds at iterations 0 through 9 and fails at 10), but at
the exit state the x interval width still exceeds tol: the claim that on
termination the width is at most tol in BOTH axes is false.  Only the y axis
satisfied the tolerance at exit. -/
theorem circle_tol_both_axes_counterexample :
    circleGuard 1
      ((circleStep ((Real.sqrt 5 - 1) / 2) (fun _ _ => (0:ℝ)))^[0]
        (circleInit (fun _ _ => (0:ℝ))
          (mkBracket ((Real.sqrt 5 - 1) / 2) 10 190)
          (mkBracket ((Real.sqrt 5 - 1) / 2) 10 90))) ∧
    circleGuard 1
      ((circleStep ((Real.sqrt 5 - 1) / 2) (fun _ _ => (0:ℝ)))^[1]
        (circleInit (fun _ _ => (0:ℝ))
          (mkBracket ((Real.sqrt 5 - 1) / 2) 10 190)
          (mkBracket ((Real.sqrt 5 - 1) / 2) 10 90))) ∧
    circleGuard 1
      ((circleStep ((Real.sqrt 5 - 1) / 2) (fun _ _ => (0:ℝ)))^[2]
        (circleInit (fun _ _ => (0:ℝ))
          (mkBracket ((Real.sqrt 5 - 1) / 2) 10 190)
          (mkBracket ((Real.sqrt 5 - 1) / 2) 10 90))) ∧
    circleGuard 1
      ((circleStep ((Real.sqrt 5 - 1) / 2) (fun _ _ => (0:ℝ)))^[3]
        (circleInit (fun _ _ => (0:ℝ))
          (mkBracket ((Real.sqrt 5 - 1) / 2) 10 190)
          (mkBracket ((Real.sqrt 5 - 1) / 2) 10 90))) ∧
    circleGuard 1
      ((circleStep ((Real.sqrt 5 - 1) / 2) (fun _ _ => (0:ℝ)))^[4]
        (circleInit (fun _ _ => (0:ℝ))
          (mkBracket ((Real.sqrt 5 - 1) / 2) 10 190)
          (mkBracket ((Real.sqrt 5 - 1) / 2) 10 90))) ∧
    circleGuard 1
      ((circleStep ((Real.sqrt 5 - 1) / 2) (fun _ _ => (0:ℝ)))^[5]
        (circleInit (fun _ _ => (0:ℝ))
          (mkBracket ((Real.sqrt 5 - 1) / 2) 10 190)
          (mkBracket ((Real.sqrt 5 - 1) / 2) 10 90))) ∧
    circleGuard 1
      ((circleStep ((Real.sqrt 5 - 1) / 2) (fun _ _ => (0:ℝ)))^[6]
        (circleInit (fun _ _ => (0:ℝ))
          (mkBracket ((Real.sqrt 5 - 1) / 2) 10 190)
          (mkBracket ((Real.sqrt 5 - 1) / 2) 10 90))) ∧
    circleGuard 1
      ((circleStep ((Real.sqrt 5 - 1) / 2) (fun _ _ => (0:ℝ)))^[7]
        (circleInit (fun _ _ => (0:ℝ))
          (mkBracket ((Real.sqrt 5 - 1) / 2) 10 190)
          (mkBracket ((Real.sqrt 5 - 1) / 2) 10 90))) ∧
    circleGuard 1
      ((circleStep ((Real.sqrt 5 - 1) / 2) (fun _ _ => (0:ℝ)))^[8]
        (circleInit (fun _ _ => (0:ℝ))
          (mkBracket ((Real.sqrt 5 - 1) / 2) 10 190)
          (mkBracket ((Real.sqrt 5 - 1) / 2) 10 90))) ∧
    circleGuard 1
      ((circleStep ((Real.sqrt 5 - 1) / 2) (fun _ _ => (0:ℝ)))^[9]
        (circleInit (fun _ _ => (0:ℝ))
          (mkBracket ((Real.sqrt 5 - 1) / 2) 10 190)
          (mkBracket ((Real.sqrt 5 - 1) / 2) 10 90))) ∧
    ¬ circleGuard 1
      ((circleStep ((Real.sqrt 5 - 1) / 2) (fun _ _ => (0:ℝ)))^[10]
        (circleInit (fun _ _ => (0:ℝ))
          (mkBracket ((Real.sqrt 5 - 1) / 2) 10 190)
          (mkBracket ((Real.sqrt 5 - 1) / 2) 10 90))) ∧
    1 < |(((circleStep ((Real.sqrt 5 - 1) / 2) (fun _ _ => (0:ℝ)))^[10]
        (circleInit (fun _ _ => (0:ℝ))
          (mkBracket ((Real.sqrt 5 - 1) / 2) 10 190)
          (mkBracket ((Real.sqrt 5 - 1) / 2) 10 90))).xb.width)| := by
  have h10 := goldenPhi_pow_ten
  have hlb := sqrt_five_lb
  have hub := sqrt_five_ub
  obtain ⟨hx10, hy10⟩ := circle_zero_traj_widths 10
  have hxgt : (1 : ℝ) <
      |(((circleStep ((Real.sqrt 5 - 1) / 2) (fun _ _ => (0:ℝ)))^[10]
        (circleInit (fun _ _ => (0:ℝ))
          (mkBracket ((Real.sqrt 5 - 1) / 2) 10 190)
          (mkBracket ((Real.sqrt 5 - 1) / 2) 10 90))).xb.width)| := by
    rw [hx10, h10]; linarith
  have hyle :
      |(((circleStep ((Real.sqrt 5 - 1) / 2) (fun _ _ => (0:ℝ)))^[10]
        (circleInit (fun _ _ => (0:ℝ))
          (mkBracket ((Real.sqrt 5 - 1) / 2) 10 190)
          (mkBracket ((Real.sqrt 5 - 1) / 2) 10 90))).yb.width)| ≤ 1 := by
    rw [hy10, h10]; linarith
  refine ⟨circle_zero_guard_until 0 (by norm_num),
    circle_zero_guard_until 1 (by norm_num),
    circle_zero_guard_until 2 (by norm_num),
    circle_zero_guard_until 3 (by norm_num),
    circle_zero_guard_until 4 (by norm_num),
    circle_zero_guard_until 5 (by norm_num),
    circle_zero_guard_until 6 (by norm_num),
    circle_zero_guard_until 7 (by norm_num),
    circle_zero_guard_until 8 (by norm_num),
    circle_zero_guard_until 9 (by norm_num),
    fun hg => absurd hg.2 (not_lt.mpr hyle), hxgt⟩

theorem phi_gt_half (phi : α) (hphi : phi ^ 2 = 1 - phi) (h0 : 0 < phi) :
    1 / 2 < phi := by nlinarith

theorem phi_lt_twothirds (phi : α) (hphi : phi ^ 2 = 1 - phi) (h0 : 0 < phi) :
    phi < 2 / 3 := by nlinarith

/-- The fresh probe lies strictly inside the bracket and differs from both
current probes. -/
theorem freshProbe_new (phi : α) (hphi : phi ^ 2 = 1 - phi) (h0 : 0 < phi)
    (h1 : phi < 1) (down : Bool) (B : Bracket α) (hg : golden phi B)
    (hw : 0 < B.width) :
    B.p0 < freshProbe phi down B ∧ freshProbe phi down B < B.p3 ∧
    freshProbe phi down B ≠ B.p1 ∧ freshProbe phi down B ≠ B.p2 := by
  obtain ⟨hp1, hp2⟩ := hg
  have hw' : 0 < B.p3 - B.p0 := hw
  have hhalf := phi_gt_half phi hphi h0
  have h23 := phi_lt_twothirds phi hphi h0
  cases down with
  | true =>
      have hf : freshProbe phi true B =
          B.p0 + (1 - phi) * (B.p2 - B.p0) := rfl
      rw [hf, hp1, hp2]
      refine ⟨by nlinarith, by nlinarith, fun hc => ?_, fun hc => ?_⟩
      · nlinarith [hc]
      · nlinarith [hc]
  | false =>
      have hf : freshProbe phi false B =
          B.p1 + phi * (B.p3 - B.p1) := rfl
      rw [hf, hp1, hp2]
      refine ⟨by nlinarith, by nlinarith, fun hc => ?_, fun hc => ?_⟩
      · nlinarith [hc]
      · nlinarith [hc]

/-- One shrink step: the fresh probe was never used before, and the coordinate
history extended with the two new probes still satisfies the invariant for the
contracted bracket. -/
theorem histOK_step (phi : α) (hphi : phi ^ 2 = 1 - phi) (h0 : 0 < phi)
    (h1 : phi < 1) (down : Bool) (B : Bracket α) (hg : golden phi B)
    (hw : 0 < B.width) (H : Set α) (hH : HistOK H B) :
    freshProbe phi down B ∉ H ∧
    HistOK (H ∪ {(shrink phi down B).p1, (shrink phi down B).p2})
      (shrink phi down B) := by
  obtain ⟨hlo, hhi, hne1, hne2⟩ := freshProbe_new phi hphi h0 h1 down B hg hw
  obtain ⟨hp1, hp2⟩ := hg
  have hw' : 0 < B.p3 - B.p0 := hw
  constructor
  · intro hmem
    rcases hH _ hmem hlo hhi with h | h
    · exact hne1 h
    · exact hne2 h
  · intro v hv hvlo hvhi
    rcases hv with hv | hv
    · -- v is an old coordinate
      cases down with
      | true =>
          -- new bracket is (p0, fresh, p1, p2)
          have hb0 : (shrink phi true B).p0 = B.p0 := rfl
          have hb3 : (shrink phi true B).p3 = B.p2 := rfl
          rw [hb0] at hvlo
          rw [hb3] at hvhi
          have hvhi' : v < B.p3 := by rw [hp2] at hvhi; nlinarith
          rcases hH v hv hvlo hvhi' with h | h
          · exact Or.inr h
          · exact absurd (h ▸ hvhi) (lt_irrefl B.p2)
      | false =>
          -- new bracket is (p1, p2, fresh, p3)
          have hb0 : (shrink phi false B).p0 = B.p1 := rfl
          have hb3 : (shrink phi false B).p3 = B.p3 := rfl
          rw [hb0] at hvlo
          rw [hb3] at hvhi
          have hvlo' : B.p0 < v := by rw [hp1] at hvlo; nlinarith
          rcases hH v hv hvlo' hvhi with h | h
          · exact absurd (h ▸ hvlo) (lt_irrefl B.p1)
          · exact Or.inl h
    · rcases hv with hv | hv
      · exact Or.inl hv
      · exact Or.inr hv

/-- Any corner evaluated by the iteration starting at st has a coordinate that
is the fresh probe of its axis, and both coordinates are current probes of the
contracted state. -/
theorem stepEval_coords (phi : α) (f : α → α → α) (st : CircleState α)
    (a b : Fin 2) (hmi : argmin2 st.s = (a, b))
    (p : α × α) (hp : p ∈ stepEvalSet phi f st) :
    (p.1 = freshProbe phi (b = 0) st.xb ∨
     p.2 = freshProbe phi (a = 0) st.yb) ∧
    (p.1 = (shrink phi (b = 0) st.xb).p1 ∨
     p.1 = (shrink phi (b = 0) st.xb).p2) ∧
    (p.2 = (shrink phi (a = 0) st.yb).p1 ∨
     p.2 = (shrink phi (a = 0) st.yb).p2) := by
  obtain ⟨j, i, hne, rfl⟩ := hp
  rw [hmi] at hne
  have hxb : (circleStep phi f st).xb = shrink phi (b = 0) st.xb := by
    show shrink phi (decide ((argmin2 st.s).2 = 0)) st.xb = _
    rw [hmi]
  have hyb : (circleStep phi f st).yb = shrink phi (a = 0) st.yb := by
    show shrink phi (decide ((argmin2 st.s).1 = 0)) st.yb = _
    rw [hmi]
  rw [show corner (circleStep phi f st).xb (circleStep phi f st).yb j i =
      corner (shrink phi (b = 0) st.xb) (shrink phi (a = 0) st.yb) j i from by
    rw [hxb, hyb]]
  fin_cases a <;> fin_cases b <;> fin_cases j <;> fin_cases i <;>
    simp_all [corner, freshProbe]

/-- C5: in every iteration of the circle-method loop, the masked-sum objective
is never re-evaluated at a corner position already evaluated in a previous
iteration (the value of the previously scored corner is reused through the
copy at line 594).  Holds for every objective f and every golden initial
bracket pair of positive widths — in particular for the brackets produced by
circleBrackets whenever the search ranges are nondegenerate. -/
theorem circle_corner_no_reevaluation (f : ℝ → ℝ → ℝ) (xb0 yb0 : Bracket ℝ)
    (hgx : golden ((Real.sqrt 5 - 1) / 2) xb0)
    (hgy : golden ((Real.sqrt 5 - 1) / 2) yb0)
    (hwx : 0 < xb0.width) (hwy : 0 < yb0.width) :
    ∀ n : ℕ, ∀ p ∈ stepEvalSet ((Real.sqrt 5 - 1) / 2) f
        ((circleStep ((Real.sqrt 5 - 1) / 2) f)^[n] (circleInit f xb0 yb0)),
      p ∉ evalHistory ((Real.sqrt 5 - 1) / 2) f xb0 yb0 n := by
  set phi : ℝ := (Real.sqrt 5 - 1) / 2 with hphidef
  have hsq : phi ^ 2 = 1 - phi := goldenPhi_sq
  have hpos : 0 < phi := goldenPhi_pos
  have hlt : phi < 1 := goldenPhi_lt_one
  have hev := circle_width_evolution phi hsq f xb0 yb0 hgx hgy
  have hwxn : ∀ n : ℕ,
      0 < (((circleStep phi f)^[n] (circleInit f xb0 yb0)).xb).width := by
    intro n
    rw [(hev n).2.2.1]
    exact mul_pos (pow_pos hpos n) hwx
  have hwyn : ∀ n : ℕ,
      0 < (((circleStep phi f)^[n] (circleInit f xb0 yb0)).yb).width := by
    intro n
    rw [(hev n).2.2.2]
    exact mul_pos (pow_pos hpos n) hwy
  have inv : ∀ n : ℕ,
      HistOK (xHist phi f xb0 yb0 n)
        (((circleStep phi f)^[n] (circleInit f xb0 yb0)).xb) ∧
      HistOK (yHist phi f xb0 yb0 n)
        (((circleStep phi f)^[n] (circleInit f xb0 yb0)).yb) ∧
      evalHistory phi f xb0 yb0 n ⊆
        (xHist phi f xb0 yb0 n) ×ˢ (yHist phi f xb0 yb0 n) := by
    intro n
    induction n with
    | zero =>
        refine ⟨?_, ?_, ?_⟩
        · intro v hv h1 h2
          simpa [xHist] using hv
        · intro v hv h1 h2
          simpa [yHist] using hv
        · intro p hp
          obtain ⟨j, i, rfl⟩ := hp
          refine Set.mem_prod.mpr ⟨?_, ?_⟩ <;>
            fin_cases i <;> fin_cases j <;>
              simp [corner, circleInit, xHist, yHist]
    | succ n ih =>
        obtain ⟨ihx, ihy, ihe⟩ := ih
        rcases hmi : argmin2 (((circleStep phi f)^[n]
          (circleInit f xb0 yb0)).s) with ⟨a, b⟩
        have hstx := histOK_step phi hsq hpos hlt (b = 0)
          (((circleStep phi f)^[n] (circleInit f xb0 yb0)).xb)
          (hev n).1 (hwxn n) _ ihx
        have hsty := histOK_step phi hsq hpos hlt (a = 0)
          (((circleStep phi f)^[n] (circleInit f xb0 yb0)).yb)
          (hev n).2.1 (hwyn n) _ ihy
        have hxbeq : ((circleStep phi f)^[n + 1]
            (circleInit f xb0 yb0)).xb =
            shrink phi (b = 0)
              (((circleStep phi f)^[n] (circleInit f xb0 yb0)).xb) := by
          rw [Function.iterate_succ_apply']
          show shrink phi (decide ((argmin2 _).2 = 0)) _ = _
          rw [hmi]
        have hybeq : ((circleStep phi f)^[n + 1]
            (circleInit f xb0 yb0)).yb =
            shrink phi (a = 0)
              (((circleStep phi f)^[n] (circleInit f xb0 yb0)).yb) := by
          rw [Function.iterate_succ_apply']
          show shrink phi (decide ((argmin2 _).1 = 0)) _ = _
          rw [hmi]
        refine ⟨?_, ?_, ?_⟩
        · show HistOK (xHist phi f xb0 yb0 n ∪
            {((circleStep phi f)^[n + 1] (circleInit f xb0 yb0)).xb.p1,
             ((circleStep phi f)^[n + 1] (circleInit f xb0 yb0)).xb.p2}) _
          rw [hxbeq]
          exact hstx.2
        · show HistOK (yHist phi f xb0 yb0 n ∪
            {((circleStep phi f)^[n + 1] (circleInit f xb0 yb0)).yb.p1,
             ((circleStep phi f)^[n + 1] (circleInit f xb0 yb0)).yb.p2}) _
          rw [hybeq]
          exact hsty.2
        · show evalHistory phi f xb0 yb0 n ∪
              stepEvalSet phi f ((circleStep phi f)^[n]
                (circleInit f xb0 yb0)) ⊆ _
          intro p hp
          rcases hp with hp | hp
          · have := ihe hp
            have h1 := (Set.mem_prod.mp this).1
            have h2 := (Set.mem_prod.mp this).2
            exact Set.mem_prod.mpr
              ⟨Or.inl h1, Or.inl h2⟩
          · obtain ⟨hfresh, hx1, hy1⟩ := stepEval_coords phi f
              ((circleStep phi f)^[n] (circleInit f xb0 yb0)) a b hmi p hp
            refine Set.mem_prod.mpr ⟨Or.inr ?_, Or.inr ?_⟩
            · rw [hxbeq]
              rcases hx1 with h | h
              · exact Or.inl h
              · exact Or.inr h
            · rw [hybeq]
              rcases hy1 with h | h
              · exact Or.inl h
              · exact Or.inr h
  intro n p hp hmem
  rcases hmi : argmin2 (((circleStep phi f)^[n]
    (circleInit f xb0 yb0)).s) with ⟨a, b⟩
  obtain ⟨hfresh, _, _⟩ := stepEval_coords phi f
    ((circleStep phi f)^[n] (circleInit f xb0 yb0)) a b hmi p hp
  have hprod := (inv n).2.2 hmem
  rcases hfresh with h | h
  · have hnot := (histOK_step phi hsq hpos hlt (b = 0)
      (((circleStep phi f)^[n] (circleInit f xb0 yb0)).xb)
      (hev n).1 (hwxn n) _ (inv n).1).1
    exact hnot (h ▸ (Set.mem_prod.mp hprod).1)
  · have hnot := (histOK_step phi hsq hpos hlt (a = 0)
      (((circleStep phi f)^[n] (circleInit f xb0 yb0)).yb)
      (hev n).2.1 (hwyn n) _ (inv n).2.1).1
    exact hnot (h ▸ (Set.mem_prod.mp hprod).2)

/-- Instance of circle_corner_no_reevaluation on the golden unit brackets
with the zero objective; all four hypotheses hold there. -/
theorem circle_corner_no_reevaluation_witness :
    golden ((Real.sqrt 5 - 1) / 2)
      (mkBracket ((Real.sqrt 5 - 1) / 2) 0 (1 : ℝ)) ∧
    (0 : ℝ) < (mkBracket ((Real.sqrt 5 - 1) / 2) 0 (1 : ℝ)).width ∧
    ∀ n : ℕ, ∀ p ∈ stepEvalSet ((Real.sqrt 5 - 1) / 2) (fun _ _ => (0:ℝ))
        ((circleStep ((Real.sqrt 5 - 1) / 2) (fun _ _ => (0:ℝ)))^[n]
          (circleInit (fun _ _ => (0:ℝ))
            (mkBracket ((Real.sqrt 5 - 1) / 2) 0 1)
            (mkBracket ((Real.sqrt 5 - 1) / 2) 0 1))),
      p ∉ evalHistory ((Real.sqrt 5 - 1) / 2) (fun _ _ => (0:ℝ))
        (mkBracket ((Real.sqrt 5 - 1) / 2) 0 1)
        (mkBracket ((Real.sqrt 5 - 1) / 2) 0 1) n :=
  ⟨golden_mkBracket _ _ _,
    by show (0:ℝ) < 1 - 0; norm_num,
    circle_corner_no_reevaluation (fun _ _ => 0)
      (mkBracket ((Real.sqrt 5 - 1) / 2) 0 1)
      (mkBracket ((Real.sqrt 5 - 1) / 2) 0 1)
      (golden_mkBracket _ _ _) (golden_mkBracket _ _ _)
      (by show (0:ℝ) < 1 - 0; norm_num)
      (by show (0:ℝ) < 1 - 0; norm_num)⟩

/-- C2: called with no method, getFiberCenter selects the first
already-computed method in the priority order radius > gaussian > circle >
edge (edge as final fallback), and getFiberDiameter selects in the order
radius > gaussian > edge; dispatching with no method is dispatching with the
selected method. -/
theorem default_method_priority (c : AnalysisState α) :
    selectCenterMethod c =
      (["radius", "gaussian", "circle"].find? (methodComputed c)).getD "edge" ∧
    selectDiameterMethod c =
      (["radius", "gaussian"].find? (methodComputed c)).getD "edge" ∧
    (∀ (S : Solvers α) (units : String),
      getFiberCenter S none units c =
      getFiberCenter S (some (selectCenterMethod c)) units c) ∧
    (∀ (S : Solvers α) (units : String),
      getFiberDiameter S none units c =
      getFiberDiameter S (some (selectDiameterMethod c)) units c) := by
  refine ⟨?_, ?_, fun S units => rfl, fun S units => rfl⟩ <;>
    rcases hr : c.radiusM with _ | t1 <;>
    rcases hg : c.gaussianM with _ | t2 <;>
    rcases hc : c.circleM with _ | t3 <;>
    simp [selectCenterMethod, selectDiameterMethod, methodComputed,
      List.find?, hr, hg, hc]

/-- C10: getFiberRadius returns exactly half of what getFiberDiameter
returns, on the same arguments, for every solver set, method argument, units
string and cache state: equal errors, or a value divided by two (with the
same final cache state). -/
theorem fiber_radius_half_diameter (S : Solvers α) (method : Option String)
    (units : String) (c : AnalysisState α) :
    getFiberRadius S method units c =
      (getFiberDiameter S method units c).map fun p => (p.1, p.2 / 2) := by
  unfold getFiberRadius
  cases h : getFiberDiameter S method units c with
  | error e => rfl
  | ok p => rfl

omit [LinearOrderedField α] in
theorem map_sum_eq_range {M : Type} [AddCommMonoid M] (g : α → M)
    (l : List α) (d : α) :
    (l.map g).sum = ∑ i ∈ Finset.range l.length, g (l.getD i d) := by
  induction l with
  | nil => simp
  | cons x xs ih =>
      rw [List.map_cons, List.sum_cons, List.length_cons,
        Finset.sum_range_succ']
      simp only [List.getD_cons_succ, List.getD_cons_zero]
      rw [ih]
      exact add_comm _ _

theorem map_shift_sum (x : α) (l : List α) :
    (l.map fun y => x + y).sum = (l.length : α) * x + l.sum := by
  induction l with
  | nil => simp
  | cons z zs ih =>
      rw [List.map_cons, List.sum_cons, List.length_cons, List.sum_cons, ih]
      push_cast
      ring

theorem map_affine_sum (a b : α) (l : List α) :
    (l.map fun x => a * x + b).sum = a * l.sum + (l.length : α) * b := by
  induction l with
  | nil => simp
  | cons z zs ih =>
      rw [List.map_cons, List.sum_cons, List.length_cons, List.sum_cons, ih]
      push_cast
      ring

theorem gini_num_nonneg (l : List α) :
    0 ≤ (l.map fun x => (l.map fun y => |x - y|).sum).sum := by
  apply List.sum_nonneg
  intro z hz
  obtain ⟨x, _, rfl⟩ := List.mem_map.mp hz
  apply List.sum_nonneg
  intro w hw
  obtain ⟨y, _, rfl⟩ := List.mem_map.mp hw
  exact abs_nonneg _

theorem gini_num_le (l : List α) (hpos : ∀ x ∈ l, 0 ≤ x) :
    (l.map fun x => (l.map fun y => |x - y|).sum).sum ≤
      2 * l.sum * (l.length : α) := by
  have hstep : ∀ x ∈ l, (l.map fun y => |x - y|).sum ≤
      (l.length : α) * x + l.sum := by
    intro x hx
    calc (l.map fun y => |x - y|).sum ≤ (l.map fun y => x + y).sum := by
          apply List.sum_le_sum
          intro y hy
          calc |x - y| ≤ |x| + |y| := abs_sub x y
            _ = x + y := by
                rw [abs_of_nonneg (hpos x hx), abs_of_nonneg (hpos y hy)]
      _ = (l.length : α) * x + l.sum := map_shift_sum x l
  calc (l.map fun x => (l.map fun y => |x - y|).sum).sum ≤
        (l.map fun x => (l.length : α) * x + l.sum).sum :=
          List.sum_le_sum hstep
    _ = (l.length : α) * l.sum + (l.length : α) * l.sum :=
          map_affine_sum (l.length : α) l.sum l
    _ = 2 * l.sum * (l.length : α) := by ring

/-- C6: for a nonnegative array with positive sum, getGiniCoefficient returns
exactly (sum over i and j of abs(a_i - a_j)) / (2 * n * sum a); the value lies
in [0, 1], and it is 0 for a constant array. -/
theorem gini_coefficient_spec (l : List ℝ) (hpos : ∀ x ∈ l, 0 ≤ x)
    (hsum : 0 < l.sum) :
    getGiniCoefficient l = (∑ i ∈ Finset.range l.length, ∑ j ∈ Finset.range l.length,
        |l.getD i 0 - l.getD j 0|) / (2 * l.sum * (l.length : ℝ)) ∧
    0 ≤ getGiniCoefficient l ∧ getGiniCoefficient l ≤ 1 ∧
    ∀ cv : ℝ, (∀ x ∈ l, x = cv) → getGiniCoefficient l = 0 := by
  have hne : l ≠ [] := by
    intro h
    rw [h] at hsum
    simp at hsum
  have hlen : 0 < (l.length : ℝ) := by
    have := List.length_pos.mpr hne
    exact_mod_cast this
  have hden : 0 < 2 * l.sum * (l.length : ℝ) := by positivity
  refine ⟨?_, ?_, ?_, ?_⟩
  · unfold getGiniCoefficient
    congr 1
    rw [map_sum_eq_range _ l 0]
    refine Finset.sum_congr rfl fun i _ => ?_
    rw [map_sum_eq_range _ l 0]
  · exact div_nonneg (gini_num_nonneg l) (le_of_lt hden)
  · rw [getGiniCoefficient, div_le_one hden]
    exact gini_num_le l hpos
  · intro cv hcv
    have hz : (l.map fun x => (l.map fun y => |x - y|).sum).sum = 0 := by
      apply List.sum_eq_zero
      intro z hz
      obtain ⟨x, hx, rfl⟩ := List.mem_map.mp hz
      apply List.sum_eq_zero
      intro w hw
      obtain ⟨y, hy, rfl⟩ := List.mem_map.mp hw
      rw [hcv x hx, hcv y hy]
      simp
    rw [getGiniCoefficient, hz, zero_div]

/-- Instance of gini_coefficient_spec on the array [1, 3]: nonnegative with
positive sum. -/
theorem gini_coefficient_spec_witness :
    (∀ x ∈ [(1:ℝ), 3], 0 ≤ x) ∧ 0 < [(1:ℝ), 3].sum ∧
    (getGiniCoefficient [(1:ℝ), 3] =
      (∑ i ∈ Finset.range ([(1:ℝ), 3]).length,
        ∑ j ∈ Finset.range ([(1:ℝ), 3]).length,
        |([(1:ℝ), 3]).getD i 0 - ([(1:ℝ), 3]).getD j 0|) /
        (2 * ([(1:ℝ), 3]).sum * (([(1:ℝ), 3]).length : ℝ)) ∧
    0 ≤ getGiniCoefficient [(1:ℝ), 3] ∧ getGiniCoefficient [(1:ℝ), 3] ≤ 1 ∧
    ∀ cv : ℝ, (∀ x ∈ [(1:ℝ), 3], x = cv) → getGiniCoefficient [(1:ℝ), 3] = 0) := by
  have hmem : ∀ x ∈ [(1:ℝ), 3], 0 ≤ x := by
    intro x hx
    rcases List.mem_cons.mp hx with h | h
    · rw [h]; norm_num
    · rw [List.mem_singleton.mp h]; norm_num
  have hs : 0 < [(1:ℝ), 3].sum := by norm_num
  exact ⟨hmem, hs, gini_coefficient_spec [(1:ℝ), 3] hmem hs⟩

theorem foldl_max_le (b : α) :
    ∀ (l : List α) (acc : α), acc ≤ b → (∀ y ∈ l, y ≤ b) →
      l.foldl max acc ≤ b := by
  intro l
  induction l with
  | nil => intro acc hacc _; exact hacc
  | cons z zs ih =>
      intro acc hacc hall
      exact ih (max acc z)
        (max_le hacc (hall z (List.mem_cons_self z zs)))
        fun y hy => hall y (List.mem_cons_of_mem z hy)

theorem listMaxD_le (d b : α) (l : List α) (hd : d ≤ b)
    (hl : ∀ x ∈ l, x ≤ b) : listMaxD d l ≤ b := by
  cases l with
  | nil => exact hd
  | cons x xs =>
      exact foldl_max_le b xs x (hl x (List.mem_cons_self x xs))
        fun y hy => hl y (List.mem_cons_of_mem x hy)

theorem edgeScan_none (n : ℕ) (p : ℕ → Bool)
    (hp : ∀ idx < n, p idx = false) : edgeScan n p = (-1, -1) := by
  induction n with
  | zero => rfl
  | succ n ih =>
      unfold edgeScan
      rw [List.range_succ, List.foldl_append]
      have hin : (List.range n).foldl _ (-1, -1) = ((-1 : ℤ), (-1 : ℤ)) :=
        ih fun idx hidx => hp idx (Nat.lt_succ_of_lt hidx)
      rw [hin]
      simp [hp n (Nat.lt_succ_self n)]

/-- C7 amended: when no pixel of the filtered image exceeds the threshold,
the edge method raises no error at all: every edge keeps the sentinel -1,
the computed center is (-1.0, -1.0) and the diameter is 0.  The missing edges
are silently defaulted into the result (the repository defines no
NoEdgeFoundError). -/
theorem edge_silent_default (img : ℕ → ℕ → α) (h w : ℕ) (threshold : α)
    (hth : 0 ≤ threshold)
    (hall : ∀ i j, i < h → j < w → img i j ≤ threshold) :
    setFiberCenterEdgeMethod img h w threshold =
      Except.ok ⟨-1, -1, -1, -1, -1, -1, 0⟩ := by
  have hcol : ∀ j < w, (decide (threshold < colMax img h j)) = false := by
    intro j hj
    rw [decide_eq_false_iff_not, not_lt]
    exact listMaxD_le 0 threshold _ hth fun x hx => by
      obtain ⟨i, hi, rfl⟩ := List.mem_map.mp hx
      exact hall i j (List.mem_range.mp hi) hj
  have hrow : ∀ i < h, (decide (threshold < rowMax img w i)) = false := by
    intro i hi
    rw [decide_eq_false_iff_not, not_lt]
    exact listMaxD_le 0 threshold _ hth fun x hx => by
      obtain ⟨j, hj, rfl⟩ := List.mem_map.mp hx
      exact hall i j hi (List.mem_range.mp hj)
  unfold setFiberCenterEdgeMethod
  rw [edgeScan_none w _ hcol, edgeScan_none h _ hrow]
  simp only [Except.ok.injEq, EdgeResult.mk.injEq]
  norm_num

/-- Instance of edge_silent_default on the all-zero 2 x 2 image with
threshold 1. -/
theorem edge_silent_default_witness :
    (0 : ℚ) ≤ 1 ∧ (∀ i j : ℕ, i < 2 → j < 2 → (0 : ℚ) ≤ 1) ∧
    setFiberCenterEdgeMethod (fun _ _ => (0 : ℚ)) 2 2 1 =
      Except.ok ⟨-1, -1, -1, -1, -1, -1, 0⟩ :=
  ⟨by norm_num, fun _ _ _ _ => by norm_num,
    edge_silent_default (fun _ _ => (0 : ℚ)) 2 2 1 (by norm_num)
      fun _ _ _ _ => by norm_num⟩

/-- C7 counterexample: on the all-zero 2 x 2 image with threshold 1, no row
or column has a pixel above the threshold, yet the edge method reports no
error: it returns the sentinel edges -1, center (-1, -1) and diameter 0.
The claim that a NoEdgeFoundError is surfaced is false of the code (no such
error exists in the repository). -/
theorem edge_no_error_counterexample :
    (¬ (1 : ℚ) < colMax (fun _ _ => 0) 2 0) ∧
    (¬ (1 : ℚ) < rowMax (fun _ _ => 0) 2 0) ∧
    setFiberCenterEdgeMethod (fun _ _ => (0 : ℚ)) 2 2 1 =
      Except.ok ⟨-1, -1, -1, -1, -1, -1, 0⟩ := by
  refine ⟨by decide, by decide, ?_⟩
  have hc := edgeScan_none 2
    (fun j => decide ((1:ℚ) < colMax (fun _ _ => 0) 2 j)) (by decide)
  have hr := edgeScan_none 2
    (fun i => decide ((1:ℚ) < rowMax (fun _ _ => 0) 2 i)) (by decide)
  unfold setFiberCenterEdgeMethod
  rw [hc, hr]
  simp only [Except.ok.injEq, EdgeResult.mk.injEq]
  norm_num

/-- C8 amended: in parameter mode the tophat metric performs the stdev/mean
division unchecked: for every intensity region, in particular one of zero
mean, the result is the ok-wrapped raw quotient — never an explicit error.
(Under IEEE arithmetic the quotient of a zero-mean region is NaN; the
embedding shows that no error branch exists.) -/
theorem tophat_division_unchecked (l : List ℝ) (hmean : pyMean l = 0) :
    getModalNoiseTophat "parameter" l =
      Except.ok (TophatResult.param (pyStd l / pyMean l)) := rfl

/-- Instance of tophat_division_unchecked on a five-pixel all-zero region. -/
theorem tophat_division_unchecked_witness :
    pyMean [(0:ℝ), 0, 0, 0, 0] = 0 ∧
    getModalNoiseTophat "parameter" [(0:ℝ), 0, 0, 0, 0] =
      Except.ok (TophatResult.param
        (pyStd [(0:ℝ), 0, 0, 0, 0] / pyMean [(0:ℝ), 0, 0, 0, 0])) :=
  ⟨by simp [pyMean], tophat_division_unchecked [(0:ℝ), 0, 0, 0, 0]
    (by simp [pyMean])⟩

/-- C8 counterexample: the all-zero 3 x 3 image, fiber center (1, 1), radius
1: the masked circular region consists of five pixels of value 0, its mean is
0, and the tophat parameter computation returns ok with the raw quotient —
no explicit error is raised, refuting the claim. -/
theorem tophat_zero_mean_counterexample :
    intensityValuesSpec (fun _ _ => 0) 3 3 1 1 1 = [0, 0, 0, 0, 0] ∧
    pyMean (intensityValuesSpec (fun _ _ => 0) 3 3 1 1 1) = 0 ∧
    getModalNoiseTophat "parameter"
        (intensityValuesSpec (fun _ _ => 0) 3 3 1 1 1) =
      Except.ok (TophatResult.param
        (pyStd (intensityValuesSpec (fun _ _ => 0) 3 3 1 1 1) /
         pyMean (intensityValuesSpec (fun _ _ => 0) 3 3 1 1 1))) := by
  have hL : intensityValuesSpec (fun _ _ => 0) 3 3 1 1 1 =
      [0, 0, 0, 0, 0] := by
    unfold intensityValuesSpec
    norm_num [List.range_succ, List.filter, List.replicate]
  refine ⟨hL, ?_, rfl⟩
  rw [hL]
  simp [pyMean]

theorem binWeight_pos_of_lt (M k : ℕ) (hk : k < M) : 0 < binWeight M k := by
  have hmem : (k, 0) ∈ binPairs M k := by
    rw [binPairs, Finset.mem_filter, Finset.mem_product]
    refine ⟨⟨Finset.mem_range.mpr hk,
      Finset.mem_range.mpr (lt_of_le_of_lt (Nat.zero_le k) hk)⟩,
      Nat.zero_le k, ?_, ?_⟩
    · show k ^ 2 + 0 ^ 2 ≤ M ^ 2
      have h2 : k ^ 2 ≤ M ^ 2 := Nat.pow_le_pow_left (le_of_lt hk) 2
      simpa using h2
    · show Nat.sqrt (k ^ 2 + 0 ^ 2) = k
      simpa using Nat.sqrt_eq' k
  rw [binWeight]
  have := Finset.card_pos.mpr ⟨(k, 0), hmem⟩
  omega

/-- C9: the two near-duplicate fft implementations produce different array
outputs on a common input: at the 3 x 3 all-ones processed image (with
pixel_size = magnification = 1), getModalNoiseFFT uses transform length
8 * min(3, 3) = 24 (max frequency 12) while _modalNoiseFFT uses the fixed
length 2500 (max frequency 1250), so already their frequency axes have
different lengths — on top of the max-versus-sum normalization of the
spectrum.  The two implementations are not equivalent. -/
theorem fft_implementations_differ :
    fftArrayA 3 3 (fun _ _ => 1) 1 1 ≠ fftArrayB 3 3 (fun _ _ => 1) 1 1 := by
  intro heq
  have hlen : ((fftArrayA 3 3 (fun _ _ => 1) 1 1).2).length =
      ((fftArrayB 3 3 (fun _ _ => 1) 1 1).2).length := by rw [heq]
  have h12 : 8 * min 3 3 / 2 = 12 := by norm_num
  have h1250 : 2500 / 2 = 1250 := by norm_num
  have hA : ((fftArrayA 3 3 (fun _ _ => 1) 1 1).2).length =
      (keptBins (8 * min 3 3 / 2)).length := by
    unfold fftArrayA
    dsimp only
    rw [List.length_map]
  have hB : ((fftArrayB 3 3 (fun _ _ => 1) 1 1).2).length =
      (keptBins (2500 / 2)).length := by
    unfold fftArrayB
    dsimp only
    rw [List.length_map]
  rw [h12] at hA
  rw [h1250] at hB
  have hAle : (keptBins 12).length ≤ 13 := by
    unfold keptBins
    rw [show (12 + 1 : ℕ) = 13 from rfl]
    exact le_trans (List.length_filter_le _ _)
      (le_of_eq (List.length_range 13))
  have hBge : 1250 ≤ (keptBins 1250).length := by
    have hcount : ∀ k ∈ List.range 1251, k < 1250 →
        (0 < binWeight 1250 k) := fun k _ hk => binWeight_pos_of_lt 1250 k hk
    have h1 : (List.range 1250).countP (fun k => decide (k < 1250)) =
        (List.range 1250).length :=
      List.countP_eq_length.mpr fun a ha =>
        decide_eq_true (List.mem_range.mp ha)
    have hcnt : (List.range 1251).countP (fun k => decide (k < 1250)) =
        1250 := by
      rw [show (1251 : ℕ) = 1250 + 1 from rfl, List.range_succ,
        List.countP_append, h1, List.length_range]
      simp
    calc (1250 : ℕ) =
        (List.range 1251).countP fun k => decide (k < 1250) := hcnt.symm
      _ ≤ (List.range 1251).countP fun k => decide (0 < binWeight 1250 k) := by
          apply List.countP_mono_left
          intro k hk hdec
          exact decide_eq_true (hcount k hk (of_decide_eq_true hdec))
      _ = (keptBins 1250).length := by
          rw [keptBins, ← List.countP_eq_length_filter]
  omega

end FiberProps
